import Mathlib

/-!
Verification development for the CREsted sequence-and-target dataset layer
(`src/crested/tl/data/_dataset.py` and `src/crested/tl/_dataloader.py`).

Python strings are modelled as `List Char`; Python `dict`s as association
lists (insertion order preserved; every inserted key is a key of the list);
exceptions as `Except String`.  Rational numbers stand in for the float
computations of the weight-normalisation code.
-/

namespace Crested

deriving instance DecidableEq for Except

/-- A Python string, modelled as its list of characters. -/
abbrev Str := List Char

/-- Python `s.split(sep)` for a single-character separator: splits on every
occurrence, keeping empty segments, and returns `[[]]` on the empty string. -/
def splitChar (sep : Char) : Str → List Str
  | [] => [[]]
  | c :: rest =>
    let r := splitChar sep rest
    if c = sep then [] :: r
    else
      match r with
      | [] => [[c]]
      | h :: t => (c :: h) :: t

/-- Digit-string test: nonempty and all characters are decimal digits
(the strings Python `int` accepts in this code are plain digit runs). -/
def isDigits (s : Str) : Bool := !s.isEmpty && s.all Char.isDigit

/-- Value of a digit string. -/
def digitsToNat (s : Str) : Nat := s.foldl (fun a c => a * 10 + (c.toNat - 48)) 0

/-- Python `int(s)` on the digit segments this code produces: `some` value on a
nonempty digit run, `none` (a `ValueError`) otherwise. -/
def parseNat (s : Str) : Option Nat := if isDigits s then some (digitsToNat s) else none

/-- Python `str(i)` for an integer, as a character list. -/
def intToStr (i : Int) : Str := (toString i).toList

/-- Fullmatch of `\d+-\d+`: exactly one dash with digit runs on both sides. -/
def matchesStartEnd (s : Str) : Bool :=
  match splitChar '-' s with
  | [a, b] => isDigits a && isDigits b
  | _ => false

/-- Fullmatch of the unstranded region regex `.+:\d+-\d+` (from
`_check_strandedness`): the segment after the last colon is `\d+-\d+` and the
part before that colon is nonempty. -/
def matchesUnstranded (region : Str) : Bool :=
  match splitChar ':' region with
  | [] => false
  | [_] => false
  | [a, b] => !a.isEmpty && matchesStartEnd b
  | _ :: rest => matchesStartEnd (rest.getLastD [])

/-- Fullmatch of the stranded region regex `.+:\d+-\d+:[-+]` (from
`_check_strandedness`). -/
def matchesStranded (region : Str) : Bool :=
  match splitChar ':' region with
  | [] => false
  | [_] => false
  | [_, _] => false
  | [a, b, c] => !a.isEmpty && matchesStartEnd b && (c = ['+'] || c = ['-'])
  | _ :: _ :: rest =>
    match (rest.getLastD []), rest.dropLast.getLastD [] with
    | c, b => matchesStartEnd b && (c = ['+'] || c = ['-'])

/-- `_check_strandedness`: `True` for a stranded region, `False` for an
unstranded one, `ValueError` otherwise (checked in this order). -/
def check_strandedness (region : Str) : Except String Bool :=
  if matchesStranded region then .ok true
  else if matchesUnstranded region then .ok false
  else .error "ValueError: region was not recognised as a valid coordinate set"

/-- The strand-flip table of `_flip_region_strand` (`{'+': '-', '-': '+'}`);
total here, but only ever applied to `+`/`-` (any other character would raise
`KeyError` in Python, which no call site of the claims can reach). -/
def strandReverser (c : Char) : Char :=
  if c = '+' then '-' else if c = '-' then '+' else c

/-- `_flip_region_strand`: replace the last character by its opposite strand. -/
def flip_region_strand (region : Str) : Str :=
  region.dropLast ++ [strandReverser (region.getLastD '+')]

/-- The region parse performed inline by `_load_sequences_into_memory`,
`get_sequence` and `_deterministic_shift_region`:
`chrom, start_end, strand = region.split(":")` followed by
`start, end = map(int, start_end.split("-"))`; any unpack or `int` failure is
a `ValueError`. -/
def parse_region_stranded (region : Str) : Except String (Str × Nat × Nat × Str) :=
  match splitChar ':' region with
  | [chrom, startEnd, strand] =>
    match splitChar '-' startEnd with
    | [s, e] =>
      match parseNat s, parseNat e with
      | some sv, some ev => .ok (chrom, sv, ev, strand)
      | _, _ => .error "ValueError: invalid literal for int"
    | _ => .error "ValueError: cannot unpack start-end"
  | _ => .error "ValueError: cannot unpack region"

/-- `_deterministic_shift_region`: shift a stranded region `n_shifts` times by
`stride` to each side, producing `2*n_shifts+1` region strings (possibly with
negative coordinates, exactly as the Python string formatting does). -/
def deterministic_shift_region (region : Str) (stride : Nat) (nShifts : Nat) :
    Except String (List Str) :=
  match parse_region_stranded region with
  | .error e => .error e
  | .ok (chrom, s, e, strand) =>
    .ok ((List.range (2 * nShifts + 1)).map (fun (i : Nat) =>
      let k : Int := (i : Int) - (nShifts : Int)
      let ns : Int := (s : Int) + k * (stride : Int)
      let ne : Int := (e : Int) + k * (stride : Int)
      chrom ++ [':'] ++ intToStr ns ++ ['-'] ++ intToStr ne ++ [':'] ++ strand))

/-! ## Genome accessor and SequenceLoader -/

/-- Modelled from the spec: the Genome Accessor (an external collaborator of
this layer, `crested._genome.Genome`, not under `src/`) exposes per-chromosome
sequences and an optional chromosome-size table; `fetch chrom start end`
returns the bases of the half-open interval `[start, end)`, clamped to the
available chromosome sequence.  An empty `chromSizes` list models an absent
(`None`/empty, hence falsy) `chrom_sizes` mapping. -/
structure GenomeModel where
  seq : Str → Str
  chromSizes : List (Str × Nat)

/-- Modelled from the spec: `fetch(chrom, start, end) -> sequence string` over
the half-open interval, truncated at the chromosome end. -/
def fetch (g : GenomeModel) (chrom : Str) (start stop : Int) : Str :=
  ((g.seq chrom).drop start.toNat).take (stop - start).toNat

/-- Python `str.maketrans("ACGT", "TGCA")` applied per character by
`str.translate`: listed characters are mapped, all others left unchanged. -/
def complementChar (c : Char) : Char :=
  if c = 'A' then 'T' else if c = 'C' then 'G'
  else if c = 'G' then 'C' else if c = 'T' then 'A' else c

/-- `SequenceLoader._reverse_complement`: `sequence.translate(complement)[::-1]`. -/
def reverse_complement (s : Str) : Str := (s.map complementChar).reverse

/-- The window computation of `SequenceLoader._get_extended_sequence`
(lines 141-150): extend symmetrically by `max_stochastic_shift`, clamp the
start at 0, recompute the end from the clamped start, and when a chromosome
size is known and the end overshoots it, slide the whole window left so that
it ends at the chromosome end. -/
def extended_window (chromsizes : List (Str × Nat)) (chrom : Str)
    (start stop mss : Nat) : Int × Int :=
  let extendedStart : Int := max 0 ((start : Int) - (mss : Int))
  let extendedEnd : Int := extendedStart + ((stop : Int) - (start : Int)) + (mss : Int) * 2
  match chromsizes.lookup chrom with
  | some chromSize =>
    if extendedEnd > (chromSize : Int) then
      (((chromSize : Int) - (((stop : Int) - (start : Int)) + (mss : Int) * 2)),
       (chromSize : Int))
    else (extendedStart, extendedEnd)
  | none => (extendedStart, extendedEnd)

/-- `SequenceLoader._get_extended_sequence`: fetch the extended window,
uppercase it, and reverse-complement the whole extended sequence on `-`. -/
def get_extended_sequence (g : GenomeModel) (chrom : Str) (start stop mss : Nat)
    (strand : Str) : Str :=
  let w := extended_window g.chromSizes chrom start stop mss
  let seq := (fetch g chrom w.1 w.2).map Char.toUpper
  if strand = ['-'] then reverse_complement seq else seq

/-- State of a `SequenceLoader`: genome handle, memory mode, shift margin, and
the in-memory cache (`self.sequences`, a dict modelled as an association
list in insertion order). -/
structure LoaderState where
  genome : GenomeModel
  inMemory : Bool
  maxStochasticShift : Nat
  sequences : List (Str × Str)

/-- The cache entries inserted for one parsed shifted region inside
`_load_sequences_into_memory`: the region's extended sequence, plus the
strand-flipped key with the reverse-complemented sequence when
`always_reverse_complement` is set. -/
def load_entries (g : GenomeModel) (mss : Nat) (alwaysRC : Bool) :
    List Str → Except String (List (Str × Str))
  | [] => .ok []
  | r :: rest =>
    match parse_region_stranded r with
    | .error e => .error e
    | .ok (chrom, s, e, strand) =>
      let ext := get_extended_sequence g chrom s e mss strand
      match load_entries g mss alwaysRC rest with
      | .error err => .error err
      | .ok es =>
        .ok ((if alwaysRC then [(r, ext), (flip_region_strand r, reverse_complement ext)]
              else [(r, ext)]) ++ es)

/-- One iteration of the region loop of `_load_sequences_into_memory`:
strand-qualify the region when the dataset is unstranded (with the
double-add check `region[-4] == ":"` guarding against mixed formatting),
expand deterministic shifts, and compute the cache entries.
`stranded` is the flag computed once from the first region. -/
def loadOne (g : GenomeModel) (mss : Nat) (alwaysRC detShift stranded : Bool)
    (region : Str) : Except String (List (Str × Str)) :=
  match (if stranded then Except.ok region
         else
           let r := region ++ [':', '+']
           if r.getD (r.length - 4) ' ' = ':' then
             Except.error "ValueError: double-adding strand ids to region"
           else Except.ok r) with
  | .error e => .error e
  | .ok region' =>
    match (if detShift then deterministic_shift_region region' 50 2
           else Except.ok [region']) with
    | .error e => .error e
    | .ok regs => load_entries g mss alwaysRC regs

/-- The region loop of `_load_sequences_into_memory`, accumulating the cache
dict in insertion order. -/
def load_regions (g : GenomeModel) (mss : Nat) (alwaysRC detShift stranded : Bool) :
    List Str → Except String (List (Str × Str))
  | [] => .ok []
  | r :: rest =>
    match loadOne g mss alwaysRC detShift stranded r with
    | .error e => .error e
    | .ok entries =>
      match load_regions g mss alwaysRC detShift stranded rest with
      | .error e => .error e
      | .ok es => .ok (entries ++ es)

/-- `SequenceLoader._load_sequences_into_memory`: check the strandedness of the
first region (`regions[0]`, an `IndexError` on an empty list) and run the
region loop. -/
def load_sequences_into_memory (g : GenomeModel) (mss : Nat)
    (alwaysRC detShift : Bool) (regions : List Str) :
    Except String (List (Str × Str)) :=
  match regions.head? with
  | none => .error "IndexError: list index out of range"
  | some r0 =>
    match check_strandedness r0 with
    | .error e => .error e
    | .ok stranded => load_regions g mss alwaysRC detShift stranded regions

/-- `SequenceLoader.__init__`: populate the cache when `in_memory` is set. -/
def sequenceLoaderInit (g : GenomeModel) (inMemory alwaysRC detShift : Bool)
    (mss : Nat) (regions : List Str) : Except String LoaderState :=
  if inMemory then
    match load_sequences_into_memory g mss alwaysRC detShift regions with
    | .error e => .error e
    | .ok cache => .ok ⟨g, true, mss, cache⟩
  else .ok ⟨g, false, mss, []⟩

/-- `SequenceLoader.get_sequence(region, stranded, shift)`: infer strandedness
when `stranded` is `none`, strand-qualify, parse, take the extended sequence
from the cache (`KeyError` on a miss) or fetch it, crop the window
`[max_stochastic_shift+shift, max_stochastic_shift+shift+(end-start))`, and
pad with `N` (`ljust` on `+`, `rjust` otherwise) when the crop is short.
The crop start `max_stochastic_shift + shift` is taken as a natural number,
faithful to the Python slice for `shift ≥ -max_stochastic_shift`. -/
def get_sequence (L : LoaderState) (region : Str) (strandedArg : Option Bool)
    (shift : Int) : Except String Str :=
  match (match strandedArg with
         | some b => Except.ok b
         | none => check_strandedness region) with
  | .error e => .error e
  | .ok stranded =>
    let region := if stranded then region else region ++ [':', '+']
    match parse_region_stranded region with
    | .error e => .error e
    | .ok (chrom, start, stop, strand) =>
      match (if L.inMemory then
               match L.sequences.lookup region with
               | some sq => Except.ok sq
               | none => Except.error "KeyError: in-memory cache miss"
             else
               Except.ok (get_extended_sequence L.genome chrom start stop
                 L.maxStochasticShift strand)) with
      | .error e => .error e
      | .ok sequence =>
        let startIdx : Nat := ((L.maxStochasticShift : Int) + shift).toNat
        let n := stop - start
        let subSequence := (sequence.drop startIdx).take n
        .ok (if subSequence.length < n then
               if strand = ['+'] then subSequence ++ List.replicate (n - subSequence.length) 'N'
               else List.replicate (n - subSequence.length) 'N' ++ subSequence
             else subSequence)

/-! ## IndexManager -/

/-- Result of `IndexManager._augment_indices`: the augmented key list and the
map back to logical regions (a dict modelled as the list of insertions). -/
structure AugmentResult where
  augmentedIndices : List Str
  augmentedMap : List (Str × Str)
  deriving DecidableEq

/-- The keys emitted for one (possibly shifted) stranded region: the region
itself, plus its strand flip when `always_reverse_complement` is set. -/
def augKeysFor (alwaysRC : Bool) (sr : Str) : List Str :=
  if alwaysRC then [sr, flip_region_strand sr] else [sr]

/-- One iteration of the loop of `IndexManager._augment_indices`: check and
normalise strandedness, expand deterministic shifts, and emit the augmented
keys for this region, every one mapping back to the original region. -/
def augmentOne (alwaysRC detShift : Bool) (region : Str) :
    Except String (List Str × List (Str × Str)) :=
  match check_strandedness region with
  | .error e => .error e
  | .ok stranded =>
    let sr := if stranded then region else region ++ [':', '+']
    match (if detShift then deterministic_shift_region sr 50 2
           else Except.ok [sr]) with
    | .error e => .error e
    | .ok srs =>
      Except.ok ((srs.map (augKeysFor alwaysRC)).flatten,
                 (srs.map (fun s => (augKeysFor alwaysRC s).map (fun k => (k, region)))).flatten)

/-- `IndexManager._augment_indices` over the whole index list. -/
def augment_indices (alwaysRC detShift : Bool) : List Str → Except String AugmentResult
  | [] => .ok ⟨[], []⟩
  | r :: rest =>
    match augmentOne alwaysRC detShift r with
    | .error e => .error e
    | .ok (keys, mp) =>
      match augment_indices alwaysRC detShift rest with
      | .error e => .error e
      | .ok res => .ok ⟨keys ++ res.augmentedIndices, mp ++ res.augmentedMap⟩

/-- State of an `IndexManager`. -/
structure IndexManagerState where
  indices : List Str
  augmentedIndices : List Str
  augmentedMap : List (Str × Str)

/-- Modelled from the spec: `np.random.shuffle` (numpy, an external
collaborator) permutes a list in place; modelled as a selection shuffle driven
by the random draws, with the list itself as fuel. -/
def selectShuffle : Nat → List Str → List Nat → List Str
  | 0, l, _ => l
  | _ + 1, [], _ => []
  | _ + 1, l, [] => l
  | fuel + 1, l, d :: ds =>
    let j := d % l.length
    l.getD j [] :: selectShuffle fuel (l.eraseIdx j) ds

/-- Modelled from the spec: one in-place `np.random.shuffle` outcome. -/
def npShuffle (l : List Str) (draws : List Nat) : List Str :=
  selectShuffle l.length l draws

/-- `IndexManager.shuffle_indices`: `np.random.shuffle(self.augmented_indices)`
mutates only the augmented-index order. -/
def shuffle_indices (st : IndexManagerState) (draws : List Nat) : IndexManagerState :=
  { st with augmentedIndices := npShuffle st.augmentedIndices draws }

/-! ## AnnDataset -/

/-- The slice of the caller's `AnnData` object this layer reads: the target
matrix `X` (observations × regions, row-major), the region identifiers
`var_names`, and the optional `var` columns `split` and `sample_prob`
(all aligned with `var_names`). -/
structure AnnDataModel where
  X : List (List ℚ)
  varNames : List Str
  splitCol : Option (List Str)
  sampleProb : Option (List ℚ)

/-- Keep the entries of `row` whose position is selected by `mask`. -/
def filterByMask {α : Type} (mask : List Bool) (row : List α) : List α :=
  ((row.zip mask).filter (fun p => p.2)).map (fun p => p.1)

/-- `AnnDataset._split_anndata`: when a split is requested, require the
`split` column (`KeyError` otherwise) and keep only the matching regions,
filtering `X` columns, `var_names` and the `var` columns consistently. -/
def split_anndata (ad : AnnDataModel) (split : Option Str) :
    Except String AnnDataModel :=
  match split with
  | none => .ok ad
  | some s =>
    match ad.splitCol with
    | none => .error "KeyError: No split column found in anndata.var"
    | some labels =>
      let mask := labels.map (fun l => l == s)
      .ok { X := ad.X.map (filterByMask mask),
            varNames := filterByMask mask ad.varNames,
            splitCol := some (filterByMask mask labels),
            sampleProb := ad.sampleProb.map (filterByMask mask) }

/-- `self.index_map = {index: i for i, index in enumerate(self.indices)}`:
dict comprehension, so a duplicated name keeps its last position. -/
def index_map_lookup (indices : List Str) (x : Str) : Option Nat :=
  (indices.enum.reverse.find? (fun p => p.2 = x)).map (fun p => p.1)

/-- State of an `AnnDataset` after construction (the fields the retrieval
path reads; the auxiliary obs/obsm/varp machinery is modelled for its default
`None` arguments, where its validation loops are vacuous). -/
structure AnnDatasetState where
  indices : List Str
  X : List (List ℚ)
  randomReverseComplement : Bool
  maxStochasticShift : Nat
  loader : LoaderState
  augmented : AugmentResult
  augmentedProbs : Option (List ℚ)

/-- `AnnDataset._get_target`: the dense column of `X` for a region
(`KeyError` on an unknown region; sparse and dense backings return the same
dense vector). -/
def get_target (st : AnnDatasetState) (index : Str) : Except String (List ℚ) :=
  match index_map_lookup st.indices index with
  | none => .error "KeyError: region not in index_map"
  | some yIdx => .ok (st.X.map (fun row => row.getD yIdx 0))

/-- `AnnDataset.__init__` (`_dataset.py` lines 311-414), in source order:
split the anndata, check the strandedness of `indices[0]`, build the
`SequenceLoader` (loading the cache when `in_memory`), build the
`IndexManager`, compute `seq_len` via a first `get_sequence` call, then
broadcast the clipped `sample_prob` column over the augmented keys.
Note that no mutual-exclusivity check of `random_reverse_complement` and
`always_reverse_complement` appears anywhere in this constructor. -/
def annDatasetInit (adata : AnnDataModel) (genome : GenomeModel)
    (split : Option Str) (inMemory randomRC alwaysRC : Bool) (mss : Nat)
    (detShift : Bool) : Except String AnnDatasetState :=
  match split_anndata adata split with
  | .error e => .error e
  | .ok ad =>
    let indices := ad.varNames
    match indices.head? with
    | none => .error "IndexError: list index out of range"
    | some firstIndex =>
      match check_strandedness firstIndex with
      | .error e => .error e
      | .ok stranded =>
        match sequenceLoaderInit genome inMemory alwaysRC detShift mss indices with
        | .error e => .error e
        | .ok loader =>
          match augment_indices alwaysRC detShift indices with
          | .error e => .error e
          | .ok aug =>
            match get_sequence loader firstIndex (some stranded) 0 with
            | .error e => .error e
            | .ok _seq0 =>
              let base : AnnDatasetState :=
                ⟨indices, ad.X, randomRC, mss, loader, aug, none⟩
              match ad.sampleProb with
              | none => .ok base
              | some probs =>
                let clipped := probs.map (fun p => max p 0)
                match aug.augmentedIndices.mapM (fun augRegion =>
                    match aug.augmentedMap.lookup augRegion with
                    | none => Except.error "KeyError: augmented map miss"
                    | some orig =>
                      match index_map_lookup indices orig with
                      | none => Except.error "KeyError: region not in index_map"
                      | some vi => Except.ok (clipped.getD vi 0)) with
                | .error e => .error e
                | .ok ps => .ok { base with augmentedProbs := some ps }

/-- Modelled from the spec: `one_hot_encode_sequence` (`crested.utils`, not
under `src/`) maps each base to its indicator row over the channel order
A, C, G, T; an unknown base (such as `N`) maps to the all-zero row. -/
def one_hot_encode_sequence (s : Str) : List (List ℚ) :=
  s.map (fun c =>
    if c = 'A' then [1, 0, 0, 0]
    else if c = 'C' then [0, 1, 0, 0]
    else if c = 'G' then [0, 0, 1, 0]
    else if c = 'T' then [0, 0, 0, 1]
    else [0, 0, 0, 0])

/-- A Python value flowing through `__getitem__`'s `x` variable: either a
string or the numpy array produced by `one_hot_encode_sequence`. -/
inductive PyVal where
  | pstr : Str → PyVal
  | parr : List (List ℚ) → PyVal

/-- `SequenceLoader._reverse_complement` applied to a dynamically typed
argument: `sequence.translate(...)` succeeds on a string but raises
`AttributeError` on a numpy array, which has no `translate` method. -/
def reverseComplementDyn : PyVal → Except String PyVal
  | .pstr s => .ok (.pstr (reverse_complement s))
  | .parr _ => .error "AttributeError: ndarray object has no attribute translate"

/-- The sample returned by `AnnDataset.__getitem__` (its `sequence` and `y`
entries; the optional aux fields are absent for default constructor args). -/
structure ItemModel where
  sequence : List (List ℚ)
  y : List ℚ
  deriving DecidableEq

/-- `AnnDataset.__getitem__(idx)` (lines 445-479): resolve the augmented key
and its logical region, draw the stochastic shift (the caller-supplied
`shiftDraw` models `np.random.randint(-mss, mss+1)`, used only when
`max_stochastic_shift > 0`), fetch and one-hot encode the sequence, fetch the
target, and - when `random_reverse_complement` holds and the coin
(`np.random.rand() < 0.5`) comes up - pass the already-encoded array `x` to
`_reverse_complement` before re-encoding, exactly as the source does. -/
def annGetItem (st : AnnDatasetState) (idx : Nat) (shiftDraw : Int)
    (coin : Bool) : Except String ItemModel :=
  match st.augmented.augmentedIndices.get? idx with
  | none => .error "IndexError: list index out of range"
  | some augmentedIndex =>
    match st.augmented.augmentedMap.lookup augmentedIndex with
    | none => .error "KeyError: augmented map miss"
    | some originalIndex =>
      let shift : Int := if st.maxStochasticShift > 0 then shiftDraw else 0
      match get_sequence st.loader augmentedIndex (some true) shift with
      | .error e => .error e
      | .ok x =>
        let x1 := one_hot_encode_sequence x
        match get_target st originalIndex with
        | .error e => .error e
        | .ok y =>
          if st.randomReverseComplement && coin then
            match reverseComplementDyn (PyVal.parr x1) with
            | .error e => .error e
            | .ok (PyVal.pstr s) => .ok ⟨one_hot_encode_sequence s, y⟩
            | .ok (PyVal.parr a) => .ok ⟨a, y⟩
          else .ok ⟨x1, y⟩

/-- The constructor validation of the tensorflow dataloader's `AnnDataset`
(`_dataloader.py` lines 60-63): both reverse-complement flags set is a
`ValueError` at construction time. -/
def dataloaderInitValidation (randomRC alwaysRC : Bool) : Except String Unit :=
  if randomRC && alwaysRC then
    .error "ValueError: only one of random_reverse_complement and always_reverse_complement can be True"
  else .ok ()

/-! ## MetaAnnDataset -/

/-- What `MetaAnnDataset.__init__` reads from each constituent `AnnDataset`:
its augmented sample count and its optional per-sample unnormalised weights
(`augmented_probs`, aligned with the augmented indices). -/
structure MetaDatasetInput where
  len : Nat
  augmentedProbs : Option (List ℚ)
  deriving DecidableEq

/-- The unnormalised weights one dataset contributes to the merged pool:
its `augmented_probs` entries when present, else `1.0` per sample
(an empty dataset is skipped by `continue`). -/
def dsWeights (ds : MetaDatasetInput) : List ℚ :=
  if ds.len = 0 then []
  else
    match ds.augmentedProbs with
    | some p => (List.range ds.len).map (fun i => p.getD i 0)
    | none => List.replicate ds.len 1

/-- The concatenated unnormalised `global_probs` before normalisation. -/
def metaRawProbs (datasets : List MetaDatasetInput) : List ℚ :=
  (datasets.map dsWeights).flatten

/-- The `(dataset_idx, local_idx)` pairs of `global_indices`, in
concatenation order. -/
def metaGlobalIndices (datasets : List MetaDatasetInput) : List (Nat × Nat) :=
  (datasets.enum.map (fun p =>
    if p.2.len = 0 then []
    else (List.range p.2.len).map (fun i => (p.1, i)))).flatten

/-- The normalisation at the end of `MetaAnnDataset.__init__`: divide by the
total when it is positive, otherwise fall back to the uniform distribution
whenever the pool is nonempty. -/
def metaGlobalProbs (datasets : List MetaDatasetInput) : List ℚ :=
  let raw := metaRawProbs datasets
  let total := raw.sum
  if total > 0 then raw.map (fun w => w / total)
  else if raw.length > 0 then List.replicate raw.length (1 / (raw.length : ℚ))
  else raw

/-- `MetaAnnDataset.__init__`: reject an empty dataset list, else build the
global index and normalised probability arrays. -/
def metaAnnDatasetInit (datasets : List MetaDatasetInput) :
    Except String (List (Nat × Nat) × List ℚ) :=
  if datasets.isEmpty then .error "ValueError: No AnnDataset provided to MetaAnnDataset"
  else .ok (metaGlobalIndices datasets, metaGlobalProbs datasets)

/-! ## Helper lemmas -/

/-- The padding step at the end of `get_sequence` always yields exactly the
requested length, for any strand, as long as the crop is not over-long. -/
theorem pad_length (sub : Str) (n : Nat) (strand : Str) (hle : sub.length ≤ n) :
    (if sub.length < n then
       if strand = ['+'] then sub ++ List.replicate (n - sub.length) 'N'
       else List.replicate (n - sub.length) 'N' ++ sub
     else sub).length = n := by
  split
  · split <;> simp <;> omega
  · omega

/-- On the fetch path (`in_memory = False`), `get_sequence` with inferred
strandedness succeeds on any region that parses, and returns exactly
`stop - start` characters. -/
theorem get_sequence_ok_length (L : LoaderState) (region chrom : Str)
    (start stop : Nat) (strand : Str) (b : Bool) (shift : Int)
    (hmem : L.inMemory = false)
    (hck : check_strandedness region = .ok b)
    (hparse : parse_region_stranded (if b then region else region ++ [':', '+']) =
      .ok (chrom, start, stop, strand)) :
    ∃ out, get_sequence L region none shift = .ok out ∧ out.length = stop - start := by
  simp only [get_sequence, hck, hparse, hmem]
  refine ⟨_, rfl, ?_⟩
  exact pad_length _ _ _ (by rw [List.length_take]; exact min_le_left _ _)

/-! ## Concrete witnesses' data -/

/-- A genome whose `chr1` entry is physically 5 bases long while the size
table promises 10: fetches get truncated, exercising the `N`-padding path. -/
def gW : GenomeModel := ⟨fun _ => "ACGTA".toList, [("chr1".toList, 10)]⟩

/-- A genome with 12 bases per chromosome and no chromosome-size table. -/
def gT : GenomeModel := ⟨fun _ => "ACGTACGTACGT".toList, []⟩

/-- A one-observation, one-region annotated-data object. -/
def adT : AnnDataModel := ⟨[[1]], ["chr1:0-5".toList], none, none⟩

/-! ## C1 -/

/-- C1: for every well-formed region string `chrom:start-end` or
`chrom:start-end:strand` with `start < end` and every shift in
`[-max_stochastic_shift, max_stochastic_shift]`, `get_sequence` returns a
string of length exactly `end - start` - for both strands, for any genome
content and any chromosome-size table, in particular when the fetched
extended sequence was truncated at a chromosome boundary and the short crop
is `N`-padded back to full length. -/
theorem get_sequence_length_contract (g : GenomeModel) (mss : Nat)
    (region chrom : Str) (start stop : Nat) (strand : Str) (b : Bool) (shift : Int)
    (hck : check_strandedness region = .ok b)
    (hparse : parse_region_stranded (if b then region else region ++ [':', '+']) =
      .ok (chrom, start, stop, strand))
    (hlt : start < stop)
    (hlo : -(mss : Int) ≤ shift) (hhi : shift ≤ (mss : Int)) :
    ∃ out, get_sequence ⟨g, false, mss, []⟩ region none shift = .ok out ∧
      out.length = stop - start :=
  get_sequence_ok_length ⟨g, false, mss, []⟩ region chrom start stop strand b shift
    rfl hck hparse

/-- Witness for C1 at the stranded region `chr1:3-9:-` with shift `-1` over
`gW`, whose `chr1` is shorter than its declared size (padding exercised). -/
theorem get_sequence_length_contract_witness :
    check_strandedness "chr1:3-9:-".toList = .ok true ∧
    parse_region_stranded
      (if true then "chr1:3-9:-".toList else "chr1:3-9:-".toList ++ [':', '+']) =
      .ok ("chr1".toList, 3, 9, "-".toList) ∧
    3 < 9 ∧ -((2 : Nat) : Int) ≤ -1 ∧ (-1 : Int) ≤ ((2 : Nat) : Int) ∧
    ∃ out, get_sequence ⟨gW, false, 2, []⟩ "chr1:3-9:-".toList none (-1) = .ok out ∧
      out.length = 9 - 3 :=
  ⟨by decide, by decide, by decide, by decide, by decide,
   get_sequence_length_contract gW 2 "chr1:3-9:-".toList "chr1".toList 3 9
     "-".toList true (-1) (by decide) (by decide) (by decide) (by decide) (by decide)⟩

/-! ## C2 -/

/-- C2 counterexample: with a size table containing `chr1` of length 10 and a
region needing a 90-base window, the boundary slide sets the fetched window
start to `10 - 90 = -80`: `_get_extended_sequence` does call the genome
accessor's fetch with a negative start when the chromosome is shorter than
`end - start + 2*max_stochastic_shift`. -/
theorem extended_window_negative_fetch_start :
    (extended_window [("chr1".toList, 10)] "chr1".toList 0 50 20).1 = -80 ∧
    (extended_window [("chr1".toList, 10)] "chr1".toList 0 50 20).1 < 0 := by decide

/-- C2 (amended): when the size table knows the chromosome AND the chromosome
is at least `end - start + 2*max_stochastic_shift` long, the extended window
is clamped into `[0, chrom_size]` by sliding (its width is preserved, never
shrunk), so fetch is called neither with a negative start nor with an end
past the chromosome length. -/
theorem extended_window_bounds (cs : List (Str × Nat)) (chrom : Str)
    (start stop mss size : Nat)
    (hlk : cs.lookup chrom = some size) (hse : start ≤ stop)
    (hsize : stop - start + 2 * mss ≤ size) :
    0 ≤ (extended_window cs chrom start stop mss).1 ∧
    (extended_window cs chrom start stop mss).2 ≤ (size : Int) ∧
    (extended_window cs chrom start stop mss).2 -
        (extended_window cs chrom start stop mss).1
      = (stop : Int) - (start : Int) + 2 * (mss : Int) := by
  simp only [extended_window, hlk]
  have hmax := le_max_left (0 : Int) ((start : Int) - (mss : Int))
  split <;> exact ⟨by omega, by omega, by omega⟩

/-- Witness for C2 (amended) at `chr1:100-200`, shift margin 10, on a
1000-base chromosome. -/
theorem extended_window_bounds_witness :
    ([("chr1".toList, 1000)].lookup "chr1".toList = some 1000) ∧
    100 ≤ 200 ∧ 200 - 100 + 2 * 10 ≤ 1000 ∧
    (0 ≤ (extended_window [("chr1".toList, 1000)] "chr1".toList 100 200 10).1 ∧
     (extended_window [("chr1".toList, 1000)] "chr1".toList 100 200 10).2 ≤ (1000 : Int) ∧
     (extended_window [("chr1".toList, 1000)] "chr1".toList 100 200 10).2 -
         (extended_window [("chr1".toList, 1000)] "chr1".toList 100 200 10).1
       = (200 : Int) - (100 : Int) + 2 * (10 : Int)) :=
  ⟨by decide, by decide, by decide,
   extended_window_bounds [("chr1".toList, 1000)] "chr1".toList 100 200 10 1000
     (by decide) (by decide) (by decide)⟩

/-! ## C7 -/

/-- C7 counterexample: for `chr1:0-50` with `max_stochastic_shift = 20` and no
chromosome-size table, the requested fetch window is NOT `[0, 70)`: the end is
recomputed from the clamped start, so the window slides to `[0, 90)`. -/
theorem extended_window_chr1_0_50_not_70 :
    extended_window [] "chr1".toList 0 50 20 ≠ (0, 70) := by decide

/-- C7 (amended): for `chr1:0-50` with `max_stochastic_shift = 20` and no
chromosome-size table, the requested window is `[0, 90)` (the 90-base window
slid right from `[-20, 70)`, not truncated to 70 bases), and `get_sequence`
still returns exactly 50 bases for every shift in `[-20, 20]`, `N`-padding
the crop only when the chromosome itself runs short. -/
theorem extended_window_chr1_0_50_slides (g : GenomeModel) (shift : Int)
    (hcs : g.chromSizes = []) (h1 : -20 ≤ shift) (h2 : shift ≤ 20) :
    extended_window g.chromSizes "chr1".toList 0 50 20 = (0, 90) ∧
    ∃ out, get_sequence ⟨g, false, 20, []⟩ "chr1:0-50".toList none shift = .ok out ∧
      out.length = 50 := by
  constructor
  · rw [hcs]; decide
  · obtain ⟨out, ho, hl⟩ := get_sequence_ok_length ⟨g, false, 20, []⟩
      "chr1:0-50".toList "chr1".toList 0 50 "+".toList false shift rfl
      (by decide) (by decide)
    exact ⟨out, ho, by simpa using hl⟩

/-- Witness for C7 (amended) over `gT` (12-base chromosomes, no size table)
at shift `-7`. -/
theorem extended_window_chr1_0_50_slides_witness :
    gT.chromSizes = [] ∧ -20 ≤ (-7 : Int) ∧ (-7 : Int) ≤ 20 ∧
    (extended_window gT.chromSizes "chr1".toList 0 50 20 = (0, 90) ∧
     ∃ out, get_sequence ⟨gT, false, 20, []⟩ "chr1:0-50".toList none (-7) = .ok out ∧
       out.length = 50) :=
  ⟨rfl, by decide, by decide,
   extended_window_chr1_0_50_slides gT (-7) rfl (by decide) (by decide)⟩

/-! ## C3 -/

/-- C3 counterexample: the `_dataset.py` `AnnDataset` constructor accepts
`random_reverse_complement = True` together with
`always_reverse_complement = True` - construction succeeds, no configuration
error is raised. -/
theorem annDatasetInit_accepts_both_rc_flags :
    (annDatasetInit adT gT none true true true 0 false).isOk = true := by decide

/-- C3 (amended): the mutual-exclusivity check lives only in the tensorflow
dataloader's `AnnDataset` (`_dataloader.py`), whose construction fails with a
`ValueError` exactly when both reverse-complement flags are set; the
`_dataset.py` `AnnDataset` performs no such validation and constructs
successfully with both flags set. -/
theorem dataloader_validates_rc_flags :
    (∀ r a : Bool, (dataloaderInitValidation r a).isOk = !(r && a)) ∧
    ∃ st, annDatasetInit adT gT none true true true 0 false = .ok st :=
  ⟨by decide, ⟨_, rfl⟩⟩

/-! ## C4 -/

/-- C4 (code bug): with `random_reverse_complement` enabled,
`AnnDataset.__getitem__` hands the already one-hot-encoded numpy array to
`SequenceLoader._reverse_complement`, whose `sequence.translate(...)` raises
`AttributeError` - so whenever the 0.5-probability coin comes up the call
errors instead of returning the encoding of the reverse complement; with the
coin down it returns normally. -/
theorem random_rc_getitem_attribute_error :
    (annDatasetInit adT gT none true true false 0 false).isOk = true ∧
    ((annDatasetInit adT gT none true true false 0 false).bind
        (fun st => annGetItem st 0 0 true)) =
      .error "AttributeError: ndarray object has no attribute translate" ∧
    ((annDatasetInit adT gT none true true false 0 false).bind
        (fun st => annGetItem st 0 0 false)).isOk = true :=
  ⟨by decide, by decide, by decide⟩

/-! ## C5 -/

/-- A successful `_deterministic_shift_region` with defaults always produces
`2*n_shifts + 1 = 5` shifted regions. -/
theorem deterministic_shift_region_ok_length (r : Str) (l : List Str)
    (h : deterministic_shift_region r 50 2 = .ok l) : l.length = 5 := by
  unfold deterministic_shift_region at h
  cases hp : parse_region_stranded r with
  | error e => rw [hp] at h; exact absurd h (by simp)
  | ok v =>
    obtain ⟨chrom, s, e, strand⟩ := v
    rw [hp] at h
    simp only [Except.ok.injEq] at h
    subst h
    rw [List.length_map, List.length_range]

/-- Each per-shifted-region key block has length 2 when
`always_reverse_complement` is set, else 1. -/
theorem augKeysFor_length (arc : Bool) (sr : Str) :
    (augKeysFor arc sr).length = if arc then 2 else 1 := by
  unfold augKeysFor; split <;> rfl

/-- Length of the flattened key blocks over a region list. -/
theorem flatten_augKeysFor_length (arc : Bool) :
    ∀ srs : List Str,
      ((srs.map (augKeysFor arc)).flatten).length =
        srs.length * (if arc then 2 else 1)
  | [] => by simp
  | sr :: rest => by
    have ih := flatten_augKeysFor_length arc rest
    cases arc <;> simp_all [augKeysFor] <;> omega

/-- What one successful `_augment_indices` loop iteration produces: the number
of keys matches the augmentation multiplier, and every map insertion points
back to the region itself. -/
theorem augmentOne_ok_spec (arc det : Bool) (r : Str) (keys : List Str)
    (mp : List (Str × Str)) (h : augmentOne arc det r = .ok (keys, mp)) :
    keys.length = (if arc then 2 else 1) * (if det then 5 else 1) ∧
    ∀ kv ∈ mp, kv.2 = r := by
  unfold augmentOne at h
  cases hck : check_strandedness r with
  | error e => rw [hck] at h; exact absurd h (by simp)
  | ok stranded =>
    simp only [hck] at h
    cases hd : (if det then
        deterministic_shift_region (if stranded then r else r ++ [':', '+']) 50 2
      else Except.ok [if stranded then r else r ++ [':', '+']]) with
    | error e => rw [hd] at h; exact absurd h (by simp)
    | ok srs =>
      rw [hd] at h
      simp only [Except.ok.injEq, Prod.mk.injEq] at h
      obtain ⟨hk, hm⟩ := h
      constructor
      · have hlen : srs.length = if det then 5 else 1 := by
          cases det with
          | false =>
            simp only [Bool.false_eq_true, if_false] at hd ⊢
            simp only [Except.ok.injEq] at hd
            subst hd; rfl
          | true =>
            simp only [if_true] at hd ⊢
            exact deterministic_shift_region_ok_length _ _ hd
        rw [← hk, flatten_augKeysFor_length, hlen, Nat.mul_comm]
      · intro kv hkv
        rw [← hm] at hkv
        simp only [List.mem_flatten, List.mem_map] at hkv
        obtain ⟨blk, ⟨s, _, hblk⟩, hkvblk⟩ := hkv
        rw [← hblk] at hkvblk
        simp only [List.mem_map] at hkvblk
        obtain ⟨k, _, hkkv⟩ := hkvblk
        rw [← hkkv]

/-- C5: for every list of well-formed regions (each surviving one
`_augment_indices` iteration) and every combination of the
`always_reverse_complement` and `deterministic_shift` flags (default stride 50
and `n_shifts` 2), `IndexManager` produces `augmented_indices` of length
`len(regions) * (2 if always_rc else 1) * (5 if deterministic_shift else 1)`,
and every entry of `augmented_indices_map` maps to a region of the original
`indices` list. -/
theorem augment_indices_length_and_map (arc det : Bool) :
    ∀ indices : List Str,
    (∀ r ∈ indices, ∃ p, augmentOne arc det r = .ok p) →
    ∃ res, augment_indices arc det indices = .ok res ∧
      res.augmentedIndices.length =
        indices.length * (if arc then 2 else 1) * (if det then 5 else 1) ∧
      ∀ kv ∈ res.augmentedMap, kv.2 ∈ indices := by
  intro indices
  induction indices with
  | nil => intro _; exact ⟨⟨[], []⟩, rfl, by simp, by simp⟩
  | cons r rest ih =>
    intro hwf
    obtain ⟨⟨keys, mp⟩, hone⟩ := hwf r (List.mem_cons_self r rest)
    obtain ⟨res, hres, hlen, hmap⟩ := ih (fun x hx => hwf x (List.mem_cons_of_mem r hx))
    refine ⟨⟨keys ++ res.augmentedIndices, mp ++ res.augmentedMap⟩, ?_, ?_, ?_⟩
    · simp only [augment_indices, hone, hres]
    · obtain ⟨hk, _⟩ := augmentOne_ok_spec arc det r keys mp hone
      simp only [List.length_append, hk, hlen, List.length_cons]
      ring
    · intro kv hkv
      rcases List.mem_append.mp hkv with hkv | hkv
      · rw [(augmentOne_ok_spec arc det r keys mp hone).2 kv hkv]
        exact List.mem_cons_self r rest
      · exact List.mem_cons_of_mem r (hmap kv hkv)

/-- Witness for C5 over one unstranded and one negative-strand region with
both flags enabled. -/
theorem augment_indices_length_and_map_witness :
    (∀ r ∈ ["c:100-150".toList, "c:200-250:-".toList],
        ∃ p, augmentOne true true r = .ok p) ∧
    ∃ res, augment_indices true true ["c:100-150".toList, "c:200-250:-".toList] = .ok res ∧
      res.augmentedIndices.length =
        ["c:100-150".toList, "c:200-250:-".toList].length *
          (if true then 2 else 1) * (if true then 5 else 1) ∧
      ∀ kv ∈ res.augmentedMap,
        kv.2 ∈ ["c:100-150".toList, "c:200-250:-".toList] := by
  have hwf : ∀ r ∈ ["c:100-150".toList, "c:200-250:-".toList],
      ∃ p, augmentOne true true r = .ok p := by
    intro r hr
    rcases List.mem_cons.mp hr with rfl | hr
    · exact ⟨_, rfl⟩
    rcases List.mem_cons.mp hr with rfl | hr
    · exact ⟨_, rfl⟩
    · exact absurd hr (List.not_mem_nil r)
  exact ⟨hwf, augment_indices_length_and_map true true _ hwf⟩

/-! ## C6 -/

/-- A list of nonnegative rationals that is not all zero has positive sum. -/
theorem sum_pos_of_nonneg_not_all_zero (l : List ℚ)
    (hnn : ∀ w ∈ l, 0 ≤ w) (hnz : ¬ ∀ w ∈ l, w = 0) : 0 < l.sum := by
  push_neg at hnz
  obtain ⟨w, hw, hwne⟩ := hnz
  exact lt_of_lt_of_le (lt_of_le_of_ne (hnn w hw) (Ne.symm hwne))
    (List.single_le_sum hnn w hw)

/-- Dividing every entry by the (nonzero) total yields sum 1. -/
theorem sum_map_div_self (l : List ℚ) (h : l.sum ≠ 0) :
    (l.map (fun w => w / l.sum)).sum = 1 := by
  simp only [div_eq_mul_inv]
  rw [List.sum_map_mul_right]
  simp only [List.map_id']
  exact mul_inv_cancel₀ h

/-- C6: for every non-empty list of datasets with nonnegative per-sample
weights, `MetaAnnDataset` construction succeeds; when the concatenated weights
are not all zero the normalised `global_probs` sums to exactly 1 and each
entry is the dataset-supplied unnormalised weight (1 per sample for a dataset
without weights) divided by the total; when the total is exactly zero,
`global_probs` is exactly uniform.  In particular, merging a dataset with
weights `[1/2, 1/2]` and a weightless one-sample dataset yields
`[1/4, 1/4, 1/2]`. -/
theorem metaAnnDataset_global_probs_spec (datasets : List MetaDatasetInput)
    (hne : datasets ≠ [])
    (hnn : ∀ w ∈ metaRawProbs datasets, 0 ≤ w) :
    ∃ gi probs, metaAnnDatasetInit datasets = .ok (gi, probs) ∧
      ((¬ ∀ w ∈ metaRawProbs datasets, w = 0) →
        probs.sum = 1 ∧
        probs = (metaRawProbs datasets).map
          (fun w => w / (metaRawProbs datasets).sum)) ∧
      ((metaRawProbs datasets).sum = 0 →
        probs = List.replicate (metaRawProbs datasets).length
          (1 / ((metaRawProbs datasets).length : ℚ))) ∧
      metaGlobalProbs [⟨2, some [1/2, 1/2]⟩, ⟨1, none⟩] = [1/4, 1/4, 1/2] := by
  refine ⟨metaGlobalIndices datasets, metaGlobalProbs datasets, ?_, ?_, ?_, ?_⟩
  · simp only [metaAnnDatasetInit, List.isEmpty_iff, if_neg hne]
  · intro hnz
    have hpos := sum_pos_of_nonneg_not_all_zero _ hnn hnz
    constructor
    · simp only [metaGlobalProbs, gt_iff_lt, if_pos hpos]
      exact sum_map_div_self _ (ne_of_gt hpos)
    · simp only [metaGlobalProbs, gt_iff_lt, if_pos hpos]
  · intro hz
    simp only [metaGlobalProbs, gt_iff_lt, hz, lt_irrefl, if_false]
    rcases Nat.eq_zero_or_pos (metaRawProbs datasets).length with h0 | h0
    · rw [List.length_eq_zero.mp h0]
      simp
    · rw [if_pos h0]
  · show (let raw := metaRawProbs _; let total := raw.sum;
      if total > 0 then raw.map (fun w => w / total)
      else if raw.length > 0 then List.replicate raw.length (1 / (raw.length : ℚ))
      else raw) = [1/4, 1/4, 1/2]
    rw [show metaRawProbs [⟨2, some [1/2, 1/2]⟩, ⟨1, none⟩] = [1/2, 1/2, 1] from rfl]
    norm_num

/-- Witness for C6 at the spec's own example configuration. -/
theorem metaAnnDataset_global_probs_spec_witness :
    ([⟨2, some [1/2, 1/2]⟩, ⟨1, none⟩] : List MetaDatasetInput) ≠ [] ∧
    (∀ w ∈ metaRawProbs [⟨2, some [1/2, 1/2]⟩, ⟨1, none⟩], 0 ≤ w) ∧
    (∃ gi probs,
        metaAnnDatasetInit [⟨2, some [1/2, 1/2]⟩, ⟨1, none⟩] = .ok (gi, probs) ∧
        ((¬ ∀ w ∈ metaRawProbs [⟨2, some [1/2, 1/2]⟩, ⟨1, none⟩], w = 0) →
          probs.sum = 1 ∧
          probs = (metaRawProbs [⟨2, some [1/2, 1/2]⟩, ⟨1, none⟩]).map
            (fun w => w / (metaRawProbs [⟨2, some [1/2, 1/2]⟩, ⟨1, none⟩]).sum)) ∧
        ((metaRawProbs [⟨2, some [1/2, 1/2]⟩, ⟨1, none⟩]).sum = 0 →
          probs = List.replicate (metaRawProbs [⟨2, some [1/2, 1/2]⟩, ⟨1, none⟩]).length
            (1 / ((metaRawProbs [⟨2, some [1/2, 1/2]⟩, ⟨1, none⟩]).length : ℚ))) ∧
        metaGlobalProbs [⟨2, some [1/2, 1/2]⟩, ⟨1, none⟩] = [1/4, 1/4, 1/2]) := by
  have hnn : ∀ w ∈ metaRawProbs [⟨2, some [1/2, 1/2]⟩, ⟨1, none⟩], 0 ≤ w := by
    intro w hw
    rw [show metaRawProbs [⟨2, some [1/2, 1/2]⟩, ⟨1, none⟩] = [1/2, 1/2, 1] from rfl]
      at hw
    rcases List.mem_cons.mp hw with rfl | hw
    · norm_num
    rcases List.mem_cons.mp hw with rfl | hw
    · norm_num
    rcases List.mem_cons.mp hw with rfl | hw
    · norm_num
    · exact absurd hw (List.not_mem_nil w)
  exact ⟨by simp, hnn, metaAnnDataset_global_probs_spec _ (by simp) hnn⟩

/-! ## C8 -/

/-- Re-consing the element removed at position `j` yields a permutation. -/
theorem getD_cons_eraseIdx_perm (l : List Str) (j : Nat) (hj : j < l.length) :
    (l.getD j [] :: l.eraseIdx j).Perm l := by
  rw [List.eraseIdx_eq_take_drop_succ, List.getD_eq_getElem l [] hj]
  refine (List.perm_middle.symm).trans ?_
  rw [List.getElem_cons_drop, List.take_append_drop]

/-- The selection shuffle always returns a permutation of its input. -/
theorem selectShuffle_perm :
    ∀ (fuel : Nat) (l : List Str) (ds : List Nat),
      (selectShuffle fuel l ds).Perm l := by
  intro fuel
  induction fuel with
  | zero => intro l ds; exact List.Perm.refl _
  | succ n ih =>
    intro l ds
    match l, ds with
    | [], _ => simp only [selectShuffle]; exact List.Perm.refl _
    | a :: t, [] => simp only [selectShuffle]; exact List.Perm.refl _
    | a :: t, d :: ds' =>
      simp only [selectShuffle]
      have hj : d % (a :: t).length < (a :: t).length := Nat.mod_lt _ (by simp)
      exact ((ih _ _).cons _).trans (getD_cons_eraseIdx_perm (a :: t) _ hj)

/-- C8: `shuffle_indices` permutes `augmented_indices` in place - afterwards
the multiset of augmented keys (hence also the length) is unchanged, and both
the logical region list `indices` and the `augmented_indices_map` are
untouched. -/
theorem shuffle_indices_content_and_frame (st : IndexManagerState)
    (draws : List Nat) :
    ((shuffle_indices st draws).augmentedIndices : Multiset Str) =
      (st.augmentedIndices : Multiset Str) ∧
    (shuffle_indices st draws).augmentedIndices.length =
      st.augmentedIndices.length ∧
    (shuffle_indices st draws).indices = st.indices ∧
    (shuffle_indices st draws).augmentedMap = st.augmentedMap :=
  ⟨Multiset.coe_eq_coe.mpr (selectShuffle_perm _ _ _),
   (selectShuffle_perm _ _ _).length_eq, rfl, rfl⟩

/-! ## C9 -/

/-- The cache keys written by the inner loop of
`_load_sequences_into_memory` for a block of shifted regions are exactly the
augmented keys `IndexManager` emits for the same block. -/
theorem load_entries_keys (g : GenomeModel) (mss : Nat) (arc : Bool) :
    ∀ (regs : List Str) (entries : List (Str × Str)),
      load_entries g mss arc regs = .ok entries →
      entries.map Prod.fst = (regs.map (augKeysFor arc)).flatten := by
  intro regs
  induction regs with
  | nil =>
    intro entries h
    simp only [load_entries, Except.ok.injEq] at h
    subst h; rfl
  | cons r rest ih =>
    intro entries h
    simp only [load_entries] at h
    cases hp : parse_region_stranded r with
    | error e => rw [hp] at h; exact absurd h (by simp)
    | ok v =>
      obtain ⟨chrom, s, e, strand⟩ := v
      rw [hp] at h
      simp only at h
      cases hrec : load_entries g mss arc rest with
      | error err => rw [hrec] at h; exact absurd h (by simp)
      | ok es =>
        rw [hrec] at h
        simp only [Except.ok.injEq] at h
        subst h
        simp only [List.map_append, List.map_cons, List.flatten_cons, ih es hrec]
        cases arc <;> simp [augKeysFor]

/-- One loop iteration of the loader and one of the index augmentation agree
on the keys they produce, given that the region's strandedness matches the
flag the loader computed from the first region. -/
theorem loadOne_keys (g : GenomeModel) (mss : Nat) (arc det b : Bool) (r : Str)
    (entries : List (Str × Str)) (keys : List Str) (mp : List (Str × Str))
    (hck : check_strandedness r = .ok b)
    (hl : loadOne g mss arc det b r = .ok entries)
    (ha : augmentOne arc det r = .ok (keys, mp)) :
    entries.map Prod.fst = keys := by
  unfold loadOne at hl
  unfold augmentOne at ha
  simp only [hck] at ha
  cases b with
  | true =>
    simp only [if_true] at hl ha
    cases hd : (if det then deterministic_shift_region r 50 2
        else Except.ok [r]) with
    | error e => rw [hd] at hl; exact absurd hl (by simp)
    | ok srs =>
      rw [hd] at hl ha
      simp only [Except.ok.injEq, Prod.mk.injEq] at ha
      rw [← ha.1]
      exact load_entries_keys g mss arc srs entries hl
  | false =>
    simp only [Bool.false_eq_true, if_false] at hl ha
    cases hdr : (if (r ++ [':', '+']).getD ((r ++ [':', '+']).length - 4) ' ' = ':' then
        Except.error "ValueError: double-adding strand ids to region"
      else Except.ok (r ++ [':', '+'])) with
    | error e => rw [hdr] at hl; exact absurd hl (by simp)
    | ok r' =>
      rw [hdr] at hl
      have hr' : r' = r ++ [':', '+'] := by
        by_cases hcond : (r ++ [':', '+']).getD ((r ++ [':', '+']).length - 4) ' ' = ':'
        · rw [if_pos hcond] at hdr; exact absurd hdr (by simp)
        · rw [if_neg hcond] at hdr
          simp only [Except.ok.injEq] at hdr
          exact hdr.symm
      subst hr'
      simp only at hl
      cases hd : (if det then deterministic_shift_region (r ++ [':', '+']) 50 2
          else Except.ok [r ++ [':', '+']]) with
      | error e => rw [hd] at hl; exact absurd hl (by simp)
      | ok srs =>
        rw [hd] at hl ha
        simp only [Except.ok.injEq, Prod.mk.injEq] at ha
        rw [← ha.1]
        exact load_entries_keys g mss arc srs entries hl

/-- Over a uniformly-stranded region list, the loader's cache keys are, in
order, exactly the augmented indices. -/
theorem load_regions_keys (g : GenomeModel) (mss : Nat) (arc det b : Bool) :
    ∀ (rs : List Str) (cache : List (Str × Str)) (res : AugmentResult),
      (∀ r ∈ rs, check_strandedness r = .ok b) →
      load_regions g mss arc det b rs = .ok cache →
      augment_indices arc det rs = .ok res →
      cache.map Prod.fst = res.augmentedIndices := by
  intro rs
  induction rs with
  | nil =>
    intro cache res _ hload haug
    simp only [load_regions, Except.ok.injEq] at hload
    simp only [augment_indices, Except.ok.injEq] at haug
    subst hload; rw [← haug]; rfl
  | cons r rest ih =>
    intro cache res hu hload haug
    simp only [load_regions] at hload
    simp only [augment_indices] at haug
    cases hone : loadOne g mss arc det b r with
    | error e => rw [hone] at hload; exact absurd hload (by simp)
    | ok entries =>
      rw [hone] at hload
      cases haugone : augmentOne arc det r with
      | error e => rw [haugone] at haug; exact absurd haug (by simp)
      | ok p =>
        obtain ⟨keys, mp⟩ := p
        rw [haugone] at haug
        simp only at hload haug
        cases hrec : load_regions g mss arc det b rest with
        | error e => rw [hrec] at hload; exact absurd hload (by simp)
        | ok es =>
          rw [hrec] at hload
          cases hrecA : augment_indices arc det rest with
          | error e => rw [hrecA] at haug; exact absurd haug (by simp)
          | ok res' =>
            rw [hrecA] at haug
            simp only [Except.ok.injEq] at hload haug
            subst hload
            rw [← haug]
            simp only [List.map_append]
            rw [loadOne_keys g mss arc det b r entries keys mp
                  (hu r (List.mem_cons_self r rest)) hone haugone,
                ih es res' (fun x hx => hu x (List.mem_cons_of_mem r hx)) hrec hrecA]

/-- Membership among an association list's keys makes `lookup` succeed. -/
theorem lookup_isSome_of_mem_keys :
    ∀ (l : List (Str × Str)) (k : Str),
      k ∈ l.map Prod.fst → (l.lookup k).isSome = true := by
  intro l
  induction l with
  | nil => intro k hk; exact absurd hk (by simp)
  | cons p t ih =>
    intro k hk
    rw [List.lookup]
    cases hbeq : k == p.1 with
    | true => rfl
    | false =>
      apply ih
      rcases List.mem_cons.mp hk with hk | hk
      · exact absurd (beq_iff_eq.mpr hk) (by rw [hbeq]; simp)
      · exact hk

/-- C9: over a non-empty, uniformly stranded or uniformly unstranded region
list on which both the in-memory `SequenceLoader` construction and the
`IndexManager` augmentation succeed (in particular any deterministic-shift
region still parses, i.e. its start stays nonnegative), every augmented key
is present as a key of the in-memory sequence cache, so the `get_sequence`
cache lookup on an augmented key can never miss. -/
theorem augmented_keys_in_memory_cache (g : GenomeModel) (mss : Nat)
    (arc det : Bool) (regions : List Str) (b : Bool)
    (cache : List (Str × Str)) (res : AugmentResult)
    (hu : ∀ r ∈ regions, check_strandedness r = .ok b)
    (hload : load_sequences_into_memory g mss arc det regions = .ok cache)
    (haug : augment_indices arc det regions = .ok res) :
    ∀ k ∈ res.augmentedIndices, (cache.lookup k).isSome = true := by
  intro k hk
  apply lookup_isSome_of_mem_keys
  cases regions with
  | nil => exact absurd hload (by simp [load_sequences_into_memory])
  | cons r0 rest =>
    unfold load_sequences_into_memory at hload
    simp only [List.head?] at hload
    have hck0 := hu r0 (List.mem_cons_self r0 rest)
    rw [hck0] at hload
    simp only at hload
    rw [load_regions_keys g mss arc det b (r0 :: rest) cache res hu hload haug]
    exact hk

/-- Witness for C9: one unstranded region with deterministic shift enabled;
the five shifted keys in the augmentation all hit cache keys. -/
theorem augmented_keys_in_memory_cache_witness :
    (∀ r ∈ ["c:100-150".toList], check_strandedness r = .ok false) ∧
    load_sequences_into_memory gT 0 false true ["c:100-150".toList] =
      .ok [("c:0-50:+".toList, "ACGTACGTACGT".toList),
           ("c:50-100:+".toList, []),
           ("c:100-150:+".toList, []),
           ("c:150-200:+".toList, []),
           ("c:200-250:+".toList, [])] ∧
    augment_indices false true ["c:100-150".toList] =
      .ok ⟨["c:0-50:+".toList, "c:50-100:+".toList, "c:100-150:+".toList,
            "c:150-200:+".toList, "c:200-250:+".toList],
           [("c:0-50:+".toList, "c:100-150".toList),
            ("c:50-100:+".toList, "c:100-150".toList),
            ("c:100-150:+".toList, "c:100-150".toList),
            ("c:150-200:+".toList, "c:100-150".toList),
            ("c:200-250:+".toList, "c:100-150".toList)]⟩ ∧
    ∀ k ∈ (⟨["c:0-50:+".toList, "c:50-100:+".toList, "c:100-150:+".toList,
             "c:150-200:+".toList, "c:200-250:+".toList],
            [("c:0-50:+".toList, "c:100-150".toList),
             ("c:50-100:+".toList, "c:100-150".toList),
             ("c:100-150:+".toList, "c:100-150".toList),
             ("c:150-200:+".toList, "c:100-150".toList),
             ("c:200-250:+".toList, "c:100-150".toList)]⟩ : AugmentResult).augmentedIndices,
      (([("c:0-50:+".toList, "ACGTACGTACGT".toList),
         ("c:50-100:+".toList, ([] : Str)),
         ("c:100-150:+".toList, []),
         ("c:150-200:+".toList, []),
         ("c:200-250:+".toList, [])]).lookup k).isSome = true :=
  ⟨by decide, by decide, by decide,
   augmented_keys_in_memory_cache gT 0 false true ["c:100-150".toList] false _ _
     (by decide) (by decide) (by decide)⟩

/-! ## C10 -/

/-- C10: `_deterministic_shift_region` on the well-formed region
`chr1:40-540:+` (whose start 40 is below `n_shifts * stride = 100`) produces
region strings with negative start coordinates matching neither region
pattern, and in-memory `SequenceLoader` construction over that region with
`deterministic_shift` enabled fails with a `ValueError` while parsing the
shifted region, whatever the genome, shift margin and
reverse-complement flag. -/
theorem deterministic_shift_negative_start_valueerror (g : GenomeModel)
    (mss : Nat) (arc : Bool) :
    deterministic_shift_region "chr1:40-540:+".toList 50 2 =
      .ok ["chr1:-60-440:+".toList, "chr1:-10-490:+".toList,
           "chr1:40-540:+".toList, "chr1:90-590:+".toList,
           "chr1:140-640:+".toList] ∧
    matchesStranded "chr1:-60-440:+".toList = false ∧
    matchesUnstranded "chr1:-60-440:+".toList = false ∧
    (load_sequences_into_memory g mss arc true ["chr1:40-540:+".toList]).isOk
      = false := by
  refine ⟨by decide, by decide, by decide, ?_⟩
  have hdsr : deterministic_shift_region "chr1:40-540:+".toList 50 2 =
      .ok ["chr1:-60-440:+".toList, "chr1:-10-490:+".toList,
           "chr1:40-540:+".toList, "chr1:90-590:+".toList,
           "chr1:140-640:+".toList] := by decide
  have hck : check_strandedness "chr1:40-540:+".toList = .ok true := by decide
  have hpe : parse_region_stranded "chr1:-60-440:+".toList =
      .error "ValueError: cannot unpack start-end" := by decide
  unfold load_sequences_into_memory
  simp only [List.head?, hck]
  simp only [load_regions, loadOne, reduceIte, hdsr, load_entries, hpe,
    Except.isOk, Except.toBool]

end Crested
